import Mathlib

/-!
Verification of the radial behaviour chart (comportamiento-radial).

This file gives a shallow embedding of the core logic of `src/App.tsx`:
the value-level data model (categories, events, persisted state), the
geometry engine (`angleForTime`, `radiusForDay`, responsive layout), the
derived view model (`monthEvents`, `clearMonthEvents`), the persistence
round trip (JSON encoding of the state blob), and the error-handling
fallbacks (default categories, dangling category references, empty form
fields).  JavaScript numbers are modelled by `ℚ` (and `ℝ` where `Math.PI`
enters), strings by `String`, optional fields by `Option`.  The host
`Date` object obtained from `new Date(iso)` is modelled by the structure
`JSDate` holding the components the code reads through `getFullYear`,
`getMonth` (0-based), `getDate`, `getHours` and `getMinutes`; timezone
conversion is ignored (UTC).  All definitions follow the source code.
-/

/-- A category record, as in `type Category` of `App.tsx`. -/
structure Category where
  id : String
  name : String
  icon : String
  color : String
deriving DecidableEq, Repr

/-- An event record, as in `type EventItem` of `App.tsx`.  The fields
`icon` and `note` are optional (`icon?`, `note?`); `datetimeISO` is the
stored ISO timestamp string. -/
structure EventItem where
  id : String
  datetimeISO : String
  categoryId : String
  icon : Option String
  note : Option String
deriving DecidableEq, Repr

/-- The persisted state blob `{ categories, events }` of `App.tsx`. -/
structure PersistedState where
  categories : List Category
  events : List EventItem
deriving DecidableEq, Repr

/-- The components of a JavaScript `Date` value that the code observes:
`getFullYear`, `getMonth` (0-based), `getDate`, `getHours`, `getMinutes`. -/
structure JSDate where
  year : ℕ
  month : ℕ
  day : ℕ
  hour : ℕ
  minute : ℕ
deriving DecidableEq, Repr

/-- Numeric value of a decimal digit character. -/
def digitToNat (c : Char) : ℕ := c.toNat - 48

/-- Reads a block of decimal digit characters as a natural number. -/
def digitsToNat (cs : List Char) : ℕ := cs.foldl (fun acc c => 10 * acc + digitToNat c) 0

/-- Reads `len` characters of `s` starting at offset `off` as a number. -/
def sliceNat (s : String) (off len : ℕ) : ℕ := digitsToNat ((s.data.drop off).take len)

/-- Models `new Date(iso)` for a canonical ISO-8601 timestamp string
`YYYY-MM-DDTHH:MM:SS.sssZ` (the shape produced by `Date.toISOString`),
exposing the component getters the code uses.  `month` is 0-based, as
`getMonth` is in JavaScript.  Timezone conversion is ignored. -/
def dateOfISO (s : String) : JSDate :=
  { year := sliceNat s 0 4
    month := sliceNat s 5 2 - 1
    day := sliceNat s 8 2
    hour := sliceNat s 11 2
    minute := sliceNat s 14 2 }

/-- The `clamp` utility of `App.tsx`: `Math.max(min, Math.min(max, v))`. -/
def clamp (v lo hi : ℚ) : ℚ := max lo (min hi v)

/-- The `isSameMonth` utility of `App.tsx`: both dates have equal
`getFullYear()` and equal `getMonth()`. -/
def isSameMonth (a b : JSDate) : Bool := a.year == b.year && a.month == b.month

/-- The fractional hour `t = h + mm/60` computed inside `angleForTime`. -/
def fracHour (d : JSDate) : ℚ := (d.hour : ℚ) + (d.minute : ℚ) / 60

/-- The `angleForTime` function of `App.tsx`:
`((t / 24) * Math.PI * 2) - Math.PI / 2` with `t = h + mm/60`. -/
noncomputable def angleForTime (d : JSDate) : ℝ :=
  (((d.hour : ℝ) + (d.minute : ℝ) / 60) / 24) * (Real.pi * 2) - Real.pi / 2

/-- The `radiusForDay` function of `App.tsx`, with its captured layout
values made explicit parameters: `innerR + clamp(day, 1, ringCount) * ringStep`. -/
def radiusForDay (innerR ringStep : ℚ) (ringCount : ℕ) (day : ℚ) : ℚ :=
  innerR + clamp day 1 (ringCount : ℚ) * ringStep

/-- The chart size computed by the resize-observer callback of `App.tsx`:
`Math.min(Math.max(320, Math.floor(width)), 1100)`. -/
def computeBoxSize (w : ℚ) : ℤ := min (max 320 ⌊w⌋) 1100

/-- One resize observation: `setBoxSize` replaces the previous box size
with the freshly computed one, ignoring the old value. -/
def nextBoxSize (_old : ℤ) (w : ℚ) : ℤ := computeBoxSize w

/-- The inner radius of the chart: `Math.max(32, size * 0.05)`. -/
def innerRadius (size : ℚ) : ℚ := max 32 (size * (5 / 100))

/-- The outer radius of the chart: `(size / 2) - padding` with `padding = 20`. -/
def outerRadius (size : ℚ) : ℚ := size / 2 - 20

/-- The derived layout triple `(size, innerR, outerR)` of `App.tsx`. -/
def layoutFor (size : ℚ) : ℚ × ℚ × ℚ := (size, innerRadius size, outerRadius size)

/-- The layout recomputed after a resize observation at width `w`
starting from box size `old`. -/
def recomputeLayout (old : ℤ) (w : ℚ) : ℚ × ℚ × ℚ := layoutFor ((nextBoxSize old w : ℤ) : ℚ)

/-- The day-of-month ordering used by the `monthEvents` sort comparator
`(a, b) => new Date(a.datetimeISO).getDate() - new Date(b.datetimeISO).getDate()`. -/
def byDayLE (a b : EventItem) : Prop :=
  (dateOfISO a.datetimeISO).day ≤ (dateOfISO b.datetimeISO).day

instance : DecidableRel byDayLE := fun a b =>
  inferInstanceAs (Decidable ((dateOfISO a.datetimeISO).day ≤ (dateOfISO b.datetimeISO).day))

instance : IsTotal EventItem byDayLE := ⟨fun x y => Nat.le_total (dateOfISO x.datetimeISO).day (dateOfISO y.datetimeISO).day⟩

instance : IsTrans EventItem byDayLE := ⟨fun _ _ _ h1 h2 => Nat.le_trans h1 h2⟩

/-- The `monthEvents` derived value of `App.tsx`: filter the events to
the month of `monthRef`, then sort ascending by day of month.  The
JavaScript `Array.prototype.sort` is stable (ES2019) and the comparator
compares `getDate()` by subtraction, so the sort is modelled by the
stable insertion sort on the day-of-month ordering. -/
def monthEvents (events : List EventItem) (monthRef : JSDate) : List EventItem :=
  List.insertionSort byDayLE
    (events.filter (fun ev => isSameMonth (dateOfISO ev.datetimeISO) monthRef))

/-- The `clearMonthEvents` handler of `App.tsx`: keep exactly the events
whose timestamp is not in the month of `monthRef` (the source writes the
year/month comparison inline). -/
def clearMonthEvents (events : List EventItem) (monthRef : JSDate) : List EventItem :=
  events.filter (fun ev =>
    let d := dateOfISO ev.datetimeISO
    !(d.year == monthRef.year && d.month == monthRef.month))

/-- The event form fields of `App.tsx` (`formDate`, `formTime`,
`formCategory`, `formIcon`, `formNote`), all plain strings. -/
structure EventForm where
  formDate : String
  formTime : String
  formCategory : String
  formIcon : String
  formNote : String
deriving DecidableEq, Repr

/-- The `addEvent` submit handler of `App.tsx`.  The host behaviour
`parseDateValue(formDate, formTime).toISOString()` is abstracted as the
parameter `mkISO`, and the random `uid("ev")` as the parameter `newId`.
If date, time or category is empty (`!formDate || !formTime ||
!formCategory`) the handler returns without touching the events;
otherwise it appends one new record, with `icon` and `note` set to the
trimmed form value or absent when the trimmed value is empty
(`formIcon.trim() || undefined`). -/
def addEvent (mkISO : String → String → String) (newId : String)
    (form : EventForm) (events : List EventItem) : List EventItem :=
  if form.formDate = "" ∨ form.formTime = "" ∨ form.formCategory = "" then events
  else
    events ++
      [{ id := newId
         datetimeISO := mkISO form.formDate form.formTime
         categoryId := form.formCategory
         icon := if form.formIcon.trim = "" then none else some form.formIcon.trim
         note := if form.formNote.trim = "" then none else some form.formNote.trim }]

/-- The category lookup `categories.find(c => c.id === ev.categoryId)`. -/
def findCategory (cats : List Category) (categoryId : String) : Option Category :=
  cats.find? (fun c => c.id == categoryId)

/-- JavaScript `x || y` for a possibly absent string `x`: the result is
`y` when `x` is `undefined` or the empty string (both falsy). -/
def jsOrString (a : Option String) (b : String) : String :=
  match a with
  | some s => if s = "" then b else s
  | none => b

/-- The icon displayed for an event, in the list and in the chart:
`ev.icon || cat?.icon || "❖"`. -/
def displayIcon (cats : List Category) (ev : EventItem) : String :=
  jsOrString ev.icon (jsOrString ((findCategory cats ev.categoryId).map Category.icon) "❖")

/-- The category name displayed for an event in the list:
`cat?.name || "(sin cat)"`. -/
def displayName (cats : List Category) (ev : EventItem) : String :=
  jsOrString ((findCategory cats ev.categoryId).map Category.name) "(sin cat)"

/-- The `DEFAULT_CATEGORIES` constant of `App.tsx`.  The `uid("cat")`
calls draw on `Math.random`, a host source; they are modelled by fixed
distinct identifiers. -/
def DEFAULT_CATEGORIES : List Category :=
  [ { id := "cat_0", name := "Minería ilegal", icon := "⛏️", color := "#dc2626" }
  , { id := "cat_1", name := "Delitos hidrocarburíferos", icon := "⛽", color := "#7c3aed" }
  , { id := "cat_2", name := "Tala ilegal", icon := "🌲", color := "#16a34a" }
  , { id := "cat_3", name := "Protestas sociales", icon := "🪧", color := "#eab308" }
  , { id := "cat_4", name := "GIA", icon := "⚠️", color := "#2563eb" }
  , { id := "cat_5", name := "Tráfico de armas", icon := "🔫", color := "#fb7185" } ]

/-- The `loadState` function of `App.tsx`.  The host storage read
`localStorage.getItem(LS_KEY)` is the parameter `stored` (`none` when the
key is absent) and the host `JSON.parse` applied to the raw text, read as
a `PersistedState`, is the parameter `parseJSON` (`none` when the parse
throws; the surrounding `try/catch` turns the throw into `null`).  An
empty stored string is falsy, so `if (!raw) return null` also yields
`none` for it. -/
def loadState (stored : Option String)
    (parseJSON : String → Option PersistedState) : Option PersistedState :=
  match stored with
  | none => none
  | some raw => if raw = "" then none else parseJSON raw

/-- The initial categories of `App.tsx`:
`loadState()?.categories || DEFAULT_CATEGORIES`. -/
def initialCategories (ls : Option PersistedState) : List Category :=
  match ls with
  | some st => st.categories
  | none => DEFAULT_CATEGORIES

/-- The initial events of `App.tsx`: `loadState()?.events || []`. -/
def initialEvents (ls : Option PersistedState) : List EventItem :=
  match ls with
  | some st => st.events
  | none => []

/-- JSON values, the abstract syntax of the text handled by
`JSON.stringify` and `JSON.parse`. -/
inductive Json where
  | null : Json
  | bool : Bool → Json
  | num : ℚ → Json
  | str : String → Json
  | arr : List Json → Json
  | obj : List (String × Json) → Json

/-- Reads a field of a JSON object, as property access on a parsed value. -/
def getField (j : Json) (key : String) : Option Json :=
  match j with
  | .obj fields => fields.lookup key
  | _ => none

/-- Reads a JSON value as a string, as the code does with string fields. -/
def asString : Json → Option String
  | .str s => some s
  | _ => none

/-- Encoding of one category by `JSON.stringify` inside `saveState`. -/
def encodeCategory (c : Category) : Json :=
  .obj [("id", .str c.id), ("name", .str c.name), ("icon", .str c.icon), ("color", .str c.color)]

/-- An optional string field under `JSON.stringify`: a field holding
`undefined` is omitted from the output object. -/
def optionalField (key : String) : Option String → List (String × Json)
  | some s => [(key, .str s)]
  | none => []

/-- Encoding of one event by `JSON.stringify` inside `saveState`. -/
def encodeEvent (e : EventItem) : Json :=
  .obj ([("id", .str e.id), ("datetimeISO", .str e.datetimeISO), ("categoryId", .str e.categoryId)]
    ++ optionalField "icon" e.icon ++ optionalField "note" e.note)

/-- Encoding of the state blob `{categories, events}` by `JSON.stringify`
inside `saveState`. -/
def encodeState (s : PersistedState) : Json :=
  .obj [ ("categories", .arr (s.categories.map encodeCategory))
       , ("events", .arr (s.events.map encodeEvent)) ]

/-- Reading one category back from the parsed blob, as `loadState`
consumers access its fields. -/
def decodeCategory (j : Json) : Option Category :=
  match getField j "id" >>= asString, getField j "name" >>= asString,
        getField j "icon" >>= asString, getField j "color" >>= asString with
  | some id, some name, some icon, some color => some ⟨id, name, icon, color⟩
  | _, _, _, _ => none

/-- Reading one event back from the parsed blob; the optional `icon` and
`note` fields are read as absent when missing. -/
def decodeEvent (j : Json) : Option EventItem :=
  match getField j "id" >>= asString, getField j "datetimeISO" >>= asString,
        getField j "categoryId" >>= asString with
  | some id, some dt, some cid =>
      some ⟨id, dt, cid, getField j "icon" >>= asString, getField j "note" >>= asString⟩
  | _, _, _ => none

/-- Reading a JSON array element-wise. -/
def decodeList (f : Json → Option α) : Json → Option (List α)
  | .arr xs => xs.mapM f
  | _ => none

/-- Reading the whole state blob `{categories, events}` back from the
value produced by `JSON.parse` in `loadState`. -/
def decodeState (j : Json) : Option PersistedState :=
  match getField j "categories" >>= decodeList decodeCategory,
        getField j "events" >>= decodeList decodeEvent with
  | some cats, some evs => some ⟨cats, evs⟩
  | _, _ => none

/-- Rewrites `angleForTime` through the rational fractional hour. -/
theorem angleForTime_eq_fracHour (d : JSDate) :
    angleForTime d = ((fracHour d : ℝ) / 24) * (Real.pi * 2) - Real.pi / 2 := by
  unfold angleForTime fracHour
  push_cast
  ring

/-- C1: `angleForTime` decomposes the timestamp into hour `h` and minute
`m`, forms `t = h + m/60` and returns `(t/24)·2π − π/2`; hour 0 minute 0
maps to `−π/2` exactly; the result depends only on the hour and minute of
day (24-hour periodicity); and it is strictly increasing in the
fractional hour. -/
theorem c1_angleForTime_spec :
    (∀ d : JSDate, angleForTime d = ((fracHour d : ℝ) / 24) * (2 * Real.pi) - Real.pi / 2) ∧
    (∀ d : JSDate, d.hour = 0 → d.minute = 0 → angleForTime d = -(Real.pi / 2)) ∧
    (∀ d1 d2 : JSDate, d1.hour = d2.hour → d1.minute = d2.minute →
        angleForTime d1 = angleForTime d2) ∧
    (∀ d1 d2 : JSDate, fracHour d1 < fracHour d2 → angleForTime d1 < angleForTime d2) := by
  refine ⟨?_, ?_, ?_, ?_⟩
  · intro d
    rw [angleForTime_eq_fracHour]
    ring
  · intro d h0 hm
    unfold angleForTime
    rw [h0, hm]
    norm_num
  · intro d1 d2 hh hm
    unfold angleForTime
    rw [hh, hm]
  · intro d1 d2 hlt
    rw [angleForTime_eq_fracHour, angleForTime_eq_fracHour]
    have h2 : (fracHour d1 : ℝ) < (fracHour d2 : ℝ) := by exact_mod_cast hlt
    nlinarith [Real.pi_pos]

/-- Witness for C1 at concrete times of day. -/
theorem c1_angleForTime_witness :
    angleForTime ⟨2024, 2, 15, 0, 0⟩ = -(Real.pi / 2) ∧
    angleForTime ⟨2024, 2, 15, 13, 30⟩ < angleForTime ⟨2024, 2, 15, 14, 0⟩ :=
  ⟨c1_angleForTime_spec.2.1 ⟨2024, 2, 15, 0, 0⟩ rfl rfl,
   c1_angleForTime_spec.2.2.2 ⟨2024, 2, 15, 13, 30⟩ ⟨2024, 2, 15, 14, 0⟩
     (by norm_num [fracHour])⟩

/-- C2: with `ringStep = (outerR − innerR)/ringCount`, `radiusForDay`
returns `innerR + clamp(day, 1, ringCount)·ringStep`; day 1 sits one ring
step out from the inner radius; the last ring sits at the outer radius;
the radius is monotone non-decreasing in the day; and it saturates below
day 1 and above day `ringCount`. -/
theorem c2_radiusForDay_spec (innerR outerR : ℚ) (n : ℕ) (step : ℚ)
    (hn : 1 ≤ n) (hio : innerR ≤ outerR) (hstep : step = (outerR - innerR) / n) :
    (∀ d : ℚ, radiusForDay innerR step n d = innerR + clamp d 1 (n : ℚ) * step) ∧
    radiusForDay innerR step n 1 = innerR + step ∧
    radiusForDay innerR step n (n : ℚ) = outerR ∧
    (∀ d1 d2 : ℚ, d1 ≤ d2 → radiusForDay innerR step n d1 ≤ radiusForDay innerR step n d2) ∧
    radiusForDay innerR step n 0 = radiusForDay innerR step n 1 ∧
    radiusForDay innerR step n ((n : ℚ) + 5) = radiusForDay innerR step n (n : ℚ) := by
  have hn1 : (1 : ℚ) ≤ (n : ℚ) := by exact_mod_cast hn
  have hn0 : (0 : ℚ) < (n : ℚ) := lt_of_lt_of_le one_pos hn1
  have hclamp1 : clamp 1 1 (n : ℚ) = 1 := by
    unfold clamp
    rw [min_eq_right hn1, max_self]
  have hclampn : clamp (n : ℚ) 1 (n : ℚ) = (n : ℚ) := by
    unfold clamp
    rw [min_self, max_eq_right hn1]
  refine ⟨fun d => rfl, ?_, ?_, ?_, ?_, ?_⟩
  · unfold radiusForDay
    rw [hclamp1, one_mul]
  · unfold radiusForDay
    rw [hclampn, hstep]
    field_simp
  · intro d1 d2 hd
    have hmono : clamp d1 1 (n : ℚ) ≤ clamp d2 1 (n : ℚ) :=
      max_le_max le_rfl (min_le_min le_rfl hd)
    have hstep0 : 0 ≤ step := by
      rw [hstep]
      exact div_nonneg (sub_nonneg.mpr hio) hn0.le
    unfold radiusForDay
    exact add_le_add_left (mul_le_mul_of_nonneg_right hmono hstep0) _
  · unfold radiusForDay
    have h0 : clamp 0 1 (n : ℚ) = 1 := by
      unfold clamp
      rw [min_eq_right hn0.le, max_eq_left (by norm_num)]
    rw [h0, hclamp1]
  · unfold radiusForDay
    have h5 : clamp ((n : ℚ) + 5) 1 (n : ℚ) = (n : ℚ) := by
      unfold clamp
      rw [min_eq_left (by linarith), max_eq_right hn1]
    rw [h5, hclampn]

/-- Witness for C2 with the March layout (31 rings, inner radius 32,
outer radius 140). -/
theorem c2_radiusForDay_witness :
    radiusForDay 32 ((140 - 32) / 31) 31 1 = 32 + (140 - 32) / 31 ∧
    radiusForDay 32 ((140 - 32) / 31) 31 (31 : ℚ) = 140 ∧
    radiusForDay 32 ((140 - 32) / 31) 31 0 = radiusForDay 32 ((140 - 32) / 31) 31 1 ∧
    radiusForDay 32 ((140 - 32) / 31) 31 ((31 : ℚ) + 5) =
      radiusForDay 32 ((140 - 32) / 31) 31 (31 : ℚ) := by
  have h := c2_radiusForDay_spec 32 140 31 ((140 - 32) / 31)
    (by norm_num) (by norm_num) (by norm_num)
  exact ⟨h.2.1, h.2.2.1, h.2.2.2.2.1, h.2.2.2.2.2⟩

/-- C5: the computed chart size is `min(1100, max(320, floor(w)))`, hence
always in `[320, 1100]`; the size after an observation does not depend on
the previous box size; repeated observation at an unchanged width is
idempotent; and the derived layout `(size, innerRadius, outerRadius)` is
a deterministic function of the width. -/
theorem c5_layout_spec (w : ℚ) :
    computeBoxSize w = min 1100 (max 320 ⌊w⌋) ∧
    320 ≤ computeBoxSize w ∧
    computeBoxSize w ≤ 1100 ∧
    (∀ old1 old2 : ℤ, nextBoxSize old1 w = nextBoxSize old2 w) ∧
    (∀ old : ℤ, nextBoxSize (nextBoxSize old w) w = nextBoxSize old w) ∧
    (∀ old1 old2 : ℤ, recomputeLayout old1 w = recomputeLayout old2 w) := by
  refine ⟨min_comm _ _, ?_, min_le_right _ _, fun _ _ => rfl, fun _ => rfl, fun _ _ => rfl⟩
  exact le_min (le_max_left _ _) (by norm_num)

/-- Witness for C5 at a concrete width. -/
theorem c5_layout_witness :
    computeBoxSize (512.5 : ℚ) = min 1100 (max 320 ⌊(512.5 : ℚ)⌋) ∧
    320 ≤ computeBoxSize (512.5 : ℚ) ∧
    computeBoxSize (512.5 : ℚ) ≤ 1100 ∧
    nextBoxSize (nextBoxSize 800 (512.5 : ℚ)) (512.5 : ℚ) = nextBoxSize 800 (512.5 : ℚ) ∧
    recomputeLayout 800 (512.5 : ℚ) = recomputeLayout 1100 (512.5 : ℚ) := by
  have h := c5_layout_spec (512.5 : ℚ)
  exact ⟨h.1, h.2.1, h.2.2.1, h.2.2.2.2.1 800, h.2.2.2.2.2 800 1100⟩

/-- C8: for an event whose `categoryId` matches no category, the listed
category name falls back to the placeholder `"(sin cat)"` and the
displayed icon falls back to the event icon when that is a non-empty
string and to the default glyph `"❖"` otherwise; no error is raised
(every display function is total). -/
theorem c8_dangling_category_fallback (cats : List Category) (ev : EventItem)
    (h : findCategory cats ev.categoryId = none) :
    displayName cats ev = "(sin cat)" ∧
    (ev.icon = none → displayIcon cats ev = "❖") ∧
    (∀ s, ev.icon = some s → s ≠ "" → displayIcon cats ev = s) ∧
    (∀ s, ev.icon = some s → s = "" → displayIcon cats ev = "❖") := by
  refine ⟨?_, ?_, ?_, ?_⟩
  · simp [displayName, h, jsOrString]
  · intro hi
    simp [displayIcon, h, hi, jsOrString]
  · intro s hi hs
    simp [displayIcon, h, hi, jsOrString, hs]
  · intro s hi hs
    simp [displayIcon, h, hi, jsOrString, hs]

/-- Witness for C8: one event with a dangling category reference. -/
theorem c8_dangling_category_witness :
    displayName [] ⟨"ev_1", "2024-03-15T13:30:00.000Z", "cat_missing", none, none⟩ =
      "(sin cat)" ∧
    displayIcon [] ⟨"ev_1", "2024-03-15T13:30:00.000Z", "cat_missing", none, none⟩ = "❖" := by
  have h := c8_dangling_category_fallback []
    ⟨"ev_1", "2024-03-15T13:30:00.000Z", "cat_missing", none, none⟩ rfl
  exact ⟨h.1, h.2.1 rfl⟩

/-- C9: submitting the event form with an empty date, time or category is
a no-op — the event collection is returned unchanged and no record is
created. -/
theorem c9_addEvent_noop (mkISO : String → String → String) (newId : String)
    (form : EventForm) (events : List EventItem)
    (h : form.formDate = "" ∨ form.formTime = "" ∨ form.formCategory = "") :
    addEvent mkISO newId form events = events := by
  unfold addEvent
  rw [if_pos h]

/-- Witness for C9: a form with an empty date. -/
theorem c9_addEvent_witness :
    addEvent (fun a b => a ++ "T" ++ b) "ev_1" ⟨"", "08:00", "cat_0", "", ""⟩ [] = [] :=
  c9_addEvent_noop _ _ _ _ (Or.inl rfl)

/-- Filtering after an ordered insert of an element satisfying the
predicate puts that element in front, provided it sorts no later than any
other element satisfying the predicate. -/
theorem filter_orderedInsert_pos {α : Type _} (r : α → α → Prop) [DecidableRel r]
    (q : α → Bool) (a : α) (ha : q a = true) (hr : ∀ b, q b = true → r a b) :
    ∀ l : List α, (List.orderedInsert r a l).filter q = a :: l.filter q := by
  intro l
  induction l with
  | nil => simp [List.orderedInsert, ha]
  | cons b t ih =>
    rw [List.orderedInsert]
    by_cases hrb : r a b
    · rw [if_pos hrb]
      simp [List.filter_cons, ha]
    · rw [if_neg hrb]
      have hqb : q b = false := by
        cases hqb : q b with
        | false => rfl
        | true => exact absurd (hr b hqb) hrb
      simp [List.filter_cons, hqb, ih]

/-- Filtering after an ordered insert of an element rejected by the
predicate leaves the filtered list unchanged. -/
theorem filter_orderedInsert_neg {α : Type _} (r : α → α → Prop) [DecidableRel r]
    (q : α → Bool) (a : α) (ha : q a = false) :
    ∀ l : List α, (List.orderedInsert r a l).filter q = l.filter q := by
  intro l
  induction l with
  | nil => simp [List.orderedInsert, ha]
  | cons b t ih =>
    rw [List.orderedInsert]
    by_cases hrb : r a b
    · rw [if_pos hrb]
      simp [List.filter_cons, ha]
    · rw [if_neg hrb]
      simp [List.filter_cons, ih]

/-- Stability of insertion sort through a filter: restricting the sorted
list to elements that are mutually unordered by `r` (here, elements with
one fixed sort key) returns them in input order. -/
theorem filter_insertionSort {α : Type _} (r : α → α → Prop) [DecidableRel r]
    (q : α → Bool) (hq : ∀ x y, q x = true → q y = true → r x y) :
    ∀ l : List α, (List.insertionSort r l).filter q = l.filter q := by
  intro l
  induction l with
  | nil => rfl
  | cons a t ih =>
    rw [List.insertionSort]
    cases ha : q a with
    | false =>
      rw [filter_orderedInsert_neg r q a ha, ih]
      simp [List.filter_cons, ha]
    | true =>
      rw [filter_orderedInsert_pos r q a ha (fun b hb => hq a b ha hb), ih]
      simp [List.filter_cons, ha]

/-- C3: `monthEvents` contains exactly the events of the collection whose
timestamp year and month equal the month reference (membership), each
occurrence of the collection appearing exactly once (count equality with
the filtered collection), and the result is sorted ascending by day of
month.  The computation is a pure projection of the collection: it is a
function of the list value and cannot mutate it. -/
theorem c3_monthEvents_spec (E : List EventItem) (M : JSDate) :
    (∀ e : EventItem, e ∈ monthEvents E M ↔
        e ∈ E ∧ isSameMonth (dateOfISO e.datetimeISO) M = true) ∧
    (∀ e : EventItem, (monthEvents E M).count e =
        (E.filter (fun ev => isSameMonth (dateOfISO ev.datetimeISO) M)).count e) ∧
    List.Sorted byDayLE (monthEvents E M) := by
  have hperm := List.perm_insertionSort byDayLE
    (E.filter (fun ev => isSameMonth (dateOfISO ev.datetimeISO) M))
  refine ⟨?_, ?_, ?_⟩
  · intro e
    rw [monthEvents, hperm.mem_iff, List.mem_filter]
  · intro e
    rw [monthEvents, hperm.count_eq]
  · unfold monthEvents
    exact List.sorted_insertionSort byDayLE _

/-- Witness for C3 on a concrete two-event collection and the March 2024
month reference. -/
theorem c3_monthEvents_witness :
    (⟨"a", "2024-03-15T13:30:00.000Z", "cat_0", none, none⟩ : EventItem) ∈
      monthEvents
        [⟨"a", "2024-03-15T13:30:00.000Z", "cat_0", none, none⟩,
         ⟨"b", "2024-04-02T08:00:00.000Z", "cat_1", none, none⟩]
        ⟨2024, 2, 1, 0, 0⟩ ∧
    List.Sorted byDayLE
      (monthEvents
        [⟨"a", "2024-03-15T13:30:00.000Z", "cat_0", none, none⟩,
         ⟨"b", "2024-04-02T08:00:00.000Z", "cat_1", none, none⟩]
        ⟨2024, 2, 1, 0, 0⟩) := by
  have h := c3_monthEvents_spec
    [⟨"a", "2024-03-15T13:30:00.000Z", "cat_0", none, none⟩,
     ⟨"b", "2024-04-02T08:00:00.000Z", "cat_1", none, none⟩]
    ⟨2024, 2, 1, 0, 0⟩
  refine ⟨(h.1 _).mpr ⟨by simp, by decide⟩, h.2.2⟩

/-- C4: clearing the displayed month removes exactly the events of that
month — the cleared collection has no month events left (so `monthEvents`
of the result is empty), is a sublist of the original collection, keeps
exactly the events outside the month (membership), and preserves every
occurrence of an event outside the month (count equality). -/
theorem c4_clearMonthEvents_spec (E : List EventItem) (M : JSDate) :
    monthEvents (clearMonthEvents E M) M = [] ∧
    List.Sublist (clearMonthEvents E M) E ∧
    (∀ e : EventItem, e ∈ clearMonthEvents E M ↔
        e ∈ E ∧ isSameMonth (dateOfISO e.datetimeISO) M = false) ∧
    (∀ e : EventItem, isSameMonth (dateOfISO e.datetimeISO) M = false →
        (clearMonthEvents E M).count e = E.count e) := by
  refine ⟨?_, List.filter_sublist _, ?_, ?_⟩
  · unfold monthEvents clearMonthEvents
    rw [List.filter_filter]
    have h0 : (E.filter fun a =>
        isSameMonth (dateOfISO a.datetimeISO) M &&
          (let d := dateOfISO a.datetimeISO
           !(d.year == M.year && d.month == M.month))) = [] := by
      rw [List.filter_eq_nil_iff]
      intro a _
      simp [isSameMonth]
    rw [h0]
    rfl
  · intro e
    unfold clearMonthEvents
    rw [List.mem_filter]
    simp only [isSameMonth]
    constructor
    · rintro ⟨hmem, hpred⟩
      refine ⟨hmem, ?_⟩
      have hp := hpred
      simp only [Bool.not_eq_true', Bool.and_eq_false_iff] at hp ⊢
      simpa using hp
    · rintro ⟨hmem, hpred⟩
      refine ⟨hmem, ?_⟩
      have hp := hpred
      simp only [Bool.not_eq_true', Bool.and_eq_false_iff] at hp ⊢
      simpa using hp
  · intro e he
    unfold clearMonthEvents
    apply List.count_filter
    simp [isSameMonth] at he ⊢
    tauto

/-- Witness for C4 on a concrete two-event collection and the March 2024
month reference. -/
theorem c4_clearMonthEvents_witness :
    monthEvents
      (clearMonthEvents
        [⟨"a", "2024-03-15T13:30:00.000Z", "cat_0", none, none⟩,
         ⟨"b", "2024-04-02T08:00:00.000Z", "cat_1", none, none⟩]
        ⟨2024, 2, 1, 0, 0⟩)
      ⟨2024, 2, 1, 0, 0⟩ = [] ∧
    (clearMonthEvents
        [⟨"a", "2024-03-15T13:30:00.000Z", "cat_0", none, none⟩,
         ⟨"b", "2024-04-02T08:00:00.000Z", "cat_1", none, none⟩]
        ⟨2024, 2, 1, 0, 0⟩).count
      ⟨"b", "2024-04-02T08:00:00.000Z", "cat_1", none, none⟩ =
      ([⟨"a", "2024-03-15T13:30:00.000Z", "cat_0", none, none⟩,
        ⟨"b", "2024-04-02T08:00:00.000Z", "cat_1", none, none⟩] : List EventItem).count
        ⟨"b", "2024-04-02T08:00:00.000Z", "cat_1", none, none⟩ := by
  have h := c4_clearMonthEvents_spec
    [⟨"a", "2024-03-15T13:30:00.000Z", "cat_0", none, none⟩,
     ⟨"b", "2024-04-02T08:00:00.000Z", "cat_1", none, none⟩]
    ⟨2024, 2, 1, 0, 0⟩
  exact ⟨h.1, h.2.2.2 _ (by decide)⟩

/-- C10: the day-of-month sort in `monthEvents` is stable and the month
filter preserves order, so the events of any fixed day of month appear in
`monthEvents` exactly in the order they have in the underlying event
collection. -/
theorem c10_monthEvents_stable (E : List EventItem) (M : JSDate) (d : ℕ) :
    (monthEvents E M).filter (fun e => (dateOfISO e.datetimeISO).day == d) =
      E.filter (fun e =>
        ((dateOfISO e.datetimeISO).day == d) &&
          isSameMonth (dateOfISO e.datetimeISO) M) := by
  unfold monthEvents
  rw [filter_insertionSort byDayLE (fun e => (dateOfISO e.datetimeISO).day == d) ?hq,
    List.filter_filter]
  case hq =>
    intro x y hx hy
    have hx2 : (dateOfISO x.datetimeISO).day = d := by simpa using hx
    have hy2 : (dateOfISO y.datetimeISO).day = d := by simpa using hy
    unfold byDayLE
    rw [hx2, hy2]

/-- A category encodes and then reads back to itself. -/
theorem decode_encode_category (c : Category) : decodeCategory (encodeCategory c) = some c :=
  rfl

/-- An event encodes and then reads back to itself, whether or not the
optional `icon` and `note` fields are present. -/
theorem decode_encode_event (e : EventItem) : decodeEvent (encodeEvent e) = some e := by
  obtain ⟨id, dt, cid, icon, note⟩ := e
  cases icon <;> cases note <;> rfl

/-- Element-wise reading of an element-wise encoded list recovers the list. -/
theorem mapM_map_eq_some {α β : Type _} (f : α → β) (g : β → Option α)
    (h : ∀ a, g (f a) = some a) : ∀ l : List α, (l.map f).mapM g = some l := by
  intro l
  induction l with
  | nil => rfl
  | cons a t ih =>
    rw [List.map_cons, List.mapM_cons, h, ih]
    rfl

/-- C6: the persistence round trip — encoding a `{categories, events}`
state as `saveState` does (`JSON.stringify`, optional fields omitted when
absent) and reading it back as `loadState` consumers do reproduces an
equal state value. -/
theorem c6_state_round_trip (s : PersistedState) : decodeState (encodeState s) = some s := by
  obtain ⟨cats, evs⟩ := s
  have hc : getField (encodeState ⟨cats, evs⟩) "categories" >>= decodeList decodeCategory =
      some cats := by
    show decodeList decodeCategory (Json.arr (cats.map encodeCategory)) = some cats
    exact mapM_map_eq_some encodeCategory decodeCategory decode_encode_category cats
  have he : getField (encodeState ⟨cats, evs⟩) "events" >>= decodeList decodeEvent =
      some evs := by
    show decodeList decodeEvent (Json.arr (evs.map encodeEvent)) = some evs
    exact mapM_map_eq_some encodeEvent decodeEvent decode_encode_event evs
  unfold decodeState
  rw [hc, he]

/-- Witness for C6 on a concrete state with one event carrying an icon
override and no note. -/
theorem c6_state_round_trip_witness :
    decodeState (encodeState
      ⟨DEFAULT_CATEGORIES,
       [⟨"ev_1", "2024-03-15T13:30:00.000Z", "cat_0", some "⛏️", none⟩]⟩) =
      some ⟨DEFAULT_CATEGORIES,
        [⟨"ev_1", "2024-03-15T13:30:00.000Z", "cat_0", some "⛏️", none⟩]⟩ :=
  c6_state_round_trip _

/-- C7: `loadState` yields `none` exactly when the stored blob is absent
or fails to parse (it never throws: the `try/catch` makes it total), and
in that case the application state falls back to the built-in default
category set of 6 categories and an empty event collection.  The
hypothesis records that `JSON.parse` rejects the empty string, the one
stored text that is falsy. -/
theorem c7_loadState_fallback (stored : Option String)
    (parseJSON : String → Option PersistedState) (hp : parseJSON "" = none) :
    (loadState stored parseJSON = none ↔
      stored = none ∨ ∃ raw, stored = some raw ∧ parseJSON raw = none) ∧
    (loadState stored parseJSON = none →
      initialCategories (loadState stored parseJSON) = DEFAULT_CATEGORIES ∧
      initialEvents (loadState stored parseJSON) = []) ∧
    DEFAULT_CATEGORIES.length = 6 := by
  refine ⟨?_, ?_, rfl⟩
  · cases stored with
    | none => simp [loadState]
    | some raw =>
      by_cases hraw : raw = ""
      · subst hraw
        simp [loadState, hp]
      · simp [loadState, hraw]
  · intro h
    rw [h]
    exact ⟨rfl, rfl⟩

/-- Witness for C7: a stored blob of invalid text. -/
theorem c7_loadState_witness :
    loadState (some "not json") (fun _ => none) = none ∧
    initialCategories (loadState (some "not json") (fun _ => none)) = DEFAULT_CATEGORIES ∧
    initialEvents (loadState (some "not json") (fun _ => none)) = [] ∧
    DEFAULT_CATEGORIES.length = 6 := by
  have h := c7_loadState_fallback (some "not json") (fun _ => none) rfl
  have hn : loadState (some "not json") (fun _ => none) = none :=
    (h.1).mpr (Or.inr ⟨"not json", rfl, rfl⟩)
  exact ⟨hn, (h.2.1 hn).1, (h.2.1 hn).2, h.2.2⟩
